import Mathlib

/-!
Verification of the dead-drop storage engine (github.com/scttfrdmn/dead-drop).

Shallow embedding conventions:
* Byte strings are modelled as `List Nat` (each element one byte; bounds are
  stated as hypotheses where a claim needs them).
* The Go standard-library AEAD (crypto/cipher AES-GCM) is modelled as an ideal
  authenticated cipher: `gcmSeal` is an injective encoding of
  (key, nonce, plaintext, aad) and `gcmOpen` is its partial inverse, so
  decryption succeeds exactly when key, nonce and AAD all match the values
  used at encryption time.  This is the contract the repository relies on.
* Hash-based primitives (SHA-256, HMAC, HKDF) are modelled as fixed-width
  deterministic digests; no proof below uses collision resistance.
* Randomness (key, nonce and identifier generation) is passed in as explicit
  entropy arguments.
* The filesystem is a path-to-bytes association list; a write prepends, a read
  takes the most recent entry.
-/

namespace DeadDrop

/-! ## Length-prefixed list encoding used by the ideal-cipher model -/

/-- Length-prefixed encoding of a byte list, used to build injective
encodings for the ideal-cipher model. -/
def encList (l : List Nat) : List Nat := l.length :: l

/-- Partial inverse of `encList`: read a length, then that many elements,
returning the decoded list and the remainder. -/
def decList : List Nat → Option (List Nat × List Nat)
  | [] => none
  | n :: rest => if n ≤ rest.length then some (rest.take n, rest.drop n) else none

theorem decList_encList (l rest : List Nat) : decList (encList l ++ rest) = some (l, rest) := by
  have hle : l.length ≤ (l ++ rest).length := by simp
  simp [encList, decList, List.cons_append, hle, List.take_left, List.drop_left]

theorem decList_encList_nil (l : List Nat) : decList (encList l) = some (l, []) := by
  simpa using decList_encList l []

/-- Signed-integer encoding (sign flag then magnitude). -/
def encInt (i : Int) : List Nat := if 0 ≤ i then [0, i.toNat] else [1, (-i).toNat]

/-- Partial inverse of `encInt`. -/
def decInt : List Nat → Option (Int × List Nat)
  | 0 :: n :: rest => some ((n : Int), rest)
  | 1 :: n :: rest => some (-(n : Int), rest)
  | _ => none

theorem decInt_encInt (i : Int) (rest : List Nat) : decInt (encInt i ++ rest) = some (i, rest) := by
  by_cases h : 0 ≤ i
  · simp [encInt, decInt, h]
  · simp [encInt, decInt, h]
    omega

/-! ## Strings as byte lists -/

/-- The bytes of a drop identifier or filename (Go `[]byte(s)`; identifiers and
the HKDF info strings are ASCII, where code points coincide with bytes). -/
def strBytes (s : String) : List Nat := s.data.map Char.toNat

/-- Inverse direction, used by the JSON-payload decoder. -/
def strOfBytes (l : List Nat) : String := String.mk (l.map Char.ofNat)

theorem strOfBytes_strBytes (s : String) : strOfBytes (strBytes s) = s := by
  cases s with
  | mk cs =>
      simp [strBytes, strOfBytes, List.map_map, Function.comp_def, Char.ofNat_toNat]

theorem strBytes_inj {s t : String} (h : strBytes s = strBytes t) : s = t := by
  have h2 : strOfBytes (strBytes s) = strOfBytes (strBytes t) := by rw [h]
  rwa [strOfBytes_strBytes, strOfBytes_strBytes] at h2

theorem str_append_ne {a b : String} (s : String) (h : a ≠ b) : s ++ a ≠ s ++ b := by
  intro he
  apply h
  have hd : (s ++ a).data = (s ++ b).data := by rw [he]
  rw [String.data_append, String.data_append] at hd
  exact String.ext (List.append_cancel_left hd)

/-! ## Ideal models of the hash primitives (crypto/sha256, crypto/hmac, x/crypto/hkdf) -/

/-- Cheap order-sensitive accumulator for the digest models. -/
def mix (a b : Nat) : Nat := 2 * a + b + 1

/-- Digest accumulator over a byte list. -/
def digestNat (l : List Nat) : Nat := l.foldl mix 0

/-- Model of SHA-256: a deterministic 32-byte digest.  No proof in this file
uses collision resistance, only determinism and output width. -/
def sha256Hash (data : List Nat) : List Nat := List.replicate 31 0 ++ [digestNat data]

/-- Model of HMAC-SHA-256 (32-byte tag, deterministic in key and message). -/
def hmacSha256 (key msg : List Nat) : List Nat :=
  List.replicate 31 0 ++ [mix (digestNat key) (digestNat msg)]

/-- Model of HKDF-SHA-256 with nil salt: a 32-byte subkey determined by the
input key material and the info string. -/
def hkdfSha256 (key info : List Nat) : List Nat :=
  List.replicate 31 0 ++ [mix (digestNat info) (digestNat key)]

theorem hkdfSha256_length (key info : List Nat) : (hkdfSha256 key info).length = 32 := by
  simp [hkdfSha256]

/-! ## Ideal AES-GCM (crypto/aes + crypto/cipher GCM) -/

/-- Go aes.NewCipher succeeds exactly for 16-, 24- or 32-byte keys. -/
def aesKeyLenOk (key : List Nat) : Bool :=
  key.length == 16 || key.length == 24 || key.length == 32

/-- Ideal-cipher model of gcm.Seal: the ciphertext is an injective encoding of
key, nonce, AAD and plaintext (a real GCM ciphertext commits to all four). -/
def gcmSeal (key nonce plaintext aad : List Nat) : List Nat :=
  encList key ++ encList nonce ++ encList aad ++ plaintext

/-- Ideal-cipher model of gcm.Open: decryption succeeds if and only if key,
nonce and AAD equal the values used by `gcmSeal`, returning the plaintext. -/
def gcmOpen (key nonce ciphertext aad : List Nat) : Option (List Nat) :=
  match decList ciphertext with
  | none => none
  | some (k, r1) =>
    match decList r1 with
    | none => none
    | some (n, r2) =>
      match decList r2 with
      | none => none
      | some (a, pt) => if k = key ∧ n = nonce ∧ a = aad then some pt else none

theorem gcmOpen_gcmSeal (key nonce pt aad : List Nat) :
    gcmOpen key nonce (gcmSeal key nonce pt aad) aad = some pt := by
  simp [gcmSeal, gcmOpen, List.append_assoc, decList_encList]

theorem gcmOpen_wrong_aad (key nonce key2 nonce2 pt aad aad2 : List Nat) (h : aad ≠ aad2) :
    gcmOpen key2 nonce2 (gcmSeal key nonce pt aad) aad2 = none := by
  simp [gcmSeal, gcmOpen, List.append_assoc, decList_encList, h]

/-! ## Hex encoding (encoding/hex, fmt %x) -/

/-- One lowercase hex digit. -/
def hexDigit (n : Nat) : Char := if n < 10 then Char.ofNat (48 + n) else Char.ofNat (87 + n)

/-- The two lowercase hex characters of one byte. -/
def byteHexChars (b : Nat) : List Char := [hexDigit (b / 16), hexDigit (b % 16)]

/-- hex.EncodeToString: two lowercase hex characters per byte. -/
def hexEncode (l : List Nat) : String := String.mk (l.flatMap byteHexChars)

/-! ## internal/storage secure.go: identifier validation and helpers -/

/-- One character of the class [a-f0-9]. -/
def isHexLower (c : Char) : Bool :=
  decide (('0' ≤ c ∧ c ≤ '9') ∨ ('a' ≤ c ∧ c ≤ 'f'))

/-- Go regexp MatchString on the anchored pattern of validDropIDRegex:
the whole string is 32 characters, each in [a-f0-9]. -/
def validDropID (id : String) : Bool :=
  id.length == 32 && id.data.all isHexLower

/-- subtle.ConstantTimeCompare of the two strings compared as byte slices:
1 exactly when they are equal. -/
def ConstantTimeCompare (a b : String) : Bool := a == b

/-- The error kinds surfaced by the storage engine (Go error values). -/
inductive StorageErr where
  | invalidDropID
  | notFound
  | quotaExceeded
  | metadataParseFailed
  | invalidMetadataVersion
  | decryptFailed
  | cipherSetupFailed
  | shortCiphertext
deriving DecidableEq

/-! ## internal/crypto stream.go: EncryptStream / DecryptStream -/

/-- EncryptStream: create the AES cipher (key length check), generate a fresh
12-byte nonce (passed as the `nonce` entropy argument), write nonce then
gcm.Seal(nil, nonce, plaintext, aad).  The result is the output stream. -/
def EncryptStream (key plaintext nonce aad : List Nat) : Except StorageErr (List Nat) :=
  if aesKeyLenOk key then .ok (nonce ++ gcmSeal key nonce plaintext aad)
  else .error .cipherSetupFailed

/-- DecryptStream: create the AES cipher, read the 12-byte nonce from the
input (error when the input is shorter), then gcm.Open the remainder with the
caller-supplied AAD.  On success the plaintext is written to the output. -/
def DecryptStream (key input aad : List Nat) : Except StorageErr (List Nat) :=
  if aesKeyLenOk key then
    if input.length < 12 then .error .shortCiphertext
    else
      match gcmOpen key (input.take 12) (input.drop 12) aad with
      | some pt => .ok pt
      | none => .error .decryptFailed
  else .error .cipherSetupFailed

/-! ## internal/crypto keys.go: key wrapping -/

/-- EncryptedKeySize: nonce(12) + ciphertext(32) + GCM tag(16) = 60 bytes. -/
def EncryptedKeySize : Nat := 60

/-- EncryptKeyFile: AES-256-GCM wrap of a plaintext key under the master key,
with the purpose label as AAD; output is nonce followed by the sealed data
(gcm.Seal with the nonce as destination prefix). -/
def EncryptKeyFile (masterKey plaintextKey purpose nonce : List Nat) :
    Except StorageErr (List Nat) :=
  if aesKeyLenOk masterKey then .ok (nonce ++ gcmSeal masterKey nonce plaintextKey purpose)
  else .error .cipherSetupFailed

/-- DecryptKeyFile: split nonce from ciphertext (error when shorter than the
nonce) and gcm.Open with the purpose label as AAD. -/
def DecryptKeyFile (masterKey encryptedData purpose : List Nat) :
    Except StorageErr (List Nat) :=
  if aesKeyLenOk masterKey then
    if encryptedData.length < 12 then .error .shortCiphertext
    else
      match gcmOpen masterKey (encryptedData.take 12) (encryptedData.drop 12) purpose with
      | some pt => .ok pt
      | none => .error .decryptFailed
  else .error .cipherSetupFailed

/-! ## internal/storage storage.go: loadOrGenerateKey -/

/-- loadOrGenerateKey.  `fileData` is the key-file contents when the file
exists (os.ReadFile succeeding), `freshKey` models crypto.GenerateKey and
`wrapNonce` the wrap nonce entropy.  The result pairs the key returned to the
caller with the key-file contents after the call.  Dispatch mirrors the
source: with no master key only a 32-byte file is accepted; with a master key
a 60-byte file is unwrapped and a 32-byte file is migrated (re-written
wrapped); any other size falls through to generating, saving and returning a
fresh key. -/
def loadOrGenerateKey (fileData : Option (List Nat)) (masterKey : Option (List Nat))
    (purpose freshKey wrapNonce : List Nat) : Except StorageErr (List Nat × List Nat) :=
  let generate : Except StorageErr (List Nat × List Nat) :=
    match masterKey with
    | none => .ok (freshKey, freshKey)
    | some mk =>
      match EncryptKeyFile mk freshKey purpose wrapNonce with
      | .ok enc => .ok (freshKey, enc)
      | .error e => .error e
  match fileData with
  | none => generate
  | some data =>
    match masterKey with
    | none => if data.length = 32 then .ok (data, data) else generate
    | some mk =>
      if data.length = EncryptedKeySize then
        match DecryptKeyFile mk data purpose with
        | .ok k => .ok (k, data)
        | .error e => .error e
      else if data.length = 32 then
        match EncryptKeyFile mk data purpose wrapNonce with
        | .ok enc => .ok (data, enc)
        | .error e => .error e
      else generate

/-- generateID: 16 random bytes rendered as 32 lowercase hex characters. -/
def generateID (entropy : List Nat) : String := hexEncode entropy

/-! ## internal/storage receipts.go -/

/-- ReceiptManager holds the persisted receipt secret. -/
structure ReceiptManager where
  secret : List Nat
deriving DecidableEq

/-- Generate: hex-encoded HMAC-SHA256 of the drop identifier bytes under the
receipt secret.  Deterministic. -/
def ReceiptManager.Generate (rm : ReceiptManager) (dropID : String) : String :=
  hexEncode (hmacSha256 rm.secret (strBytes dropID))

/-- Validate: recompute the expected receipt and compare in constant time. -/
def ReceiptManager.Validate (rm : ReceiptManager) (dropID receipt : String) : Bool :=
  ConstantTimeCompare (rm.Generate dropID) receipt

/-! ## internal/storage metadata.go -/

/-- The on-disk JSON envelope for encrypted metadata.  The source stores the
ciphertext and nonce hex-encoded; hex encoding is a bijection on byte
strings, so the model keeps the byte lists themselves (hexDecode of the
written field is the identity at this granularity). -/
structure EncryptedMetadata where
  version : Int
  encryptedData : List Nat
  nonce : List Nat
deriving DecidableEq

def metadataVersion : Int := 1

/-- The decrypted metadata content. -/
structure MetadataPayload where
  filename : String
  receipt : String
  timestampHour : Int
  fileHash : String
deriving DecidableEq

/-- json.Marshal of the envelope, modelled as an injective byte encoding. -/
def envelopeMarshal (e : EncryptedMetadata) : List Nat :=
  encInt e.version ++ encList e.encryptedData ++ encList e.nonce

/-- json.Unmarshal into EncryptedMetadata: partial inverse of
`envelopeMarshal`; any other byte string fails to parse. -/
def envelopeUnmarshal (b : List Nat) : Option EncryptedMetadata :=
  match decInt b with
  | none => none
  | some (v, r1) =>
    match decList r1 with
    | none => none
    | some (ed, r2) =>
      match decList r2 with
      | none => none
      | some (n, rest) =>
        if rest = [] then some { version := v, encryptedData := ed, nonce := n } else none

theorem envelopeUnmarshal_marshal (e : EncryptedMetadata) :
    envelopeUnmarshal (envelopeMarshal e) = some e := by
  simp [envelopeMarshal, envelopeUnmarshal, List.append_assoc, decInt_encInt,
    decList_encList, decList_encList_nil]

def encStr (s : String) : List Nat := encList (strBytes s)

/-- json.Marshal of the metadata payload, modelled as an injective byte
encoding of the four fields. -/
def payloadMarshal (p : MetadataPayload) : List Nat :=
  encStr p.filename ++ encStr p.receipt ++ encInt p.timestampHour ++ encStr p.fileHash

/-- json.Unmarshal into MetadataPayload: partial inverse of
`payloadMarshal`. -/
def payloadUnmarshal (b : List Nat) : Option MetadataPayload :=
  match decList b with
  | none => none
  | some (f, r1) =>
    match decList r1 with
    | none => none
    | some (rc, r2) =>
      match decInt r2 with
      | none => none
      | some (ts, r3) =>
        match decList r3 with
        | none => none
        | some (fh, rest) =>
          if rest = [] then
            some { filename := strOfBytes f, receipt := strOfBytes rc,
                   timestampHour := ts, fileHash := strOfBytes fh }
          else none

theorem payloadUnmarshal_marshal (p : MetadataPayload) :
    payloadUnmarshal (payloadMarshal p) = some p := by
  simp [payloadMarshal, payloadUnmarshal, encStr, List.append_assoc, decInt_encInt,
    decList_encList, decList_encList_nil, strOfBytes_strBytes]

/-- deriveMetadataKey: HKDF-SHA-256 from the storage key with nil salt and
info string "dead-drop-metadata-" followed by the drop identifier; 32 bytes
are read from the HKDF stream. -/
def deriveMetadataKey (storageKey : List Nat) (dropID : String) : List Nat :=
  hkdfSha256 storageKey (strBytes ("dead-drop-metadata-" ++ dropID))

/-- roundToHour: truncate a Unix-seconds timestamp to the hour (the exact
rounding convention of time.Truncate is irrelevant to every claim below). -/
def roundToHour (t : Int) : Int := 3600 * (t / 3600)

/-- saveEncryptedMetadata, encryption step: derive the per-drop subkey,
json.Marshal the payload, create the AES-GCM cipher (key length check),
generate a fresh nonce (the `nonce` entropy argument) and seal with the drop
identifier bytes as AAD; the envelope carries version 1, the ciphertext and
the nonce.  The file write is done by the caller (see `saveEncryptedMetadataFs`). -/
def saveEncryptedMetadata (storageKey : List Nat) (dropID : String) (nonce : List Nat)
    (payload : MetadataPayload) : Except StorageErr EncryptedMetadata :=
  let metaKey := deriveMetadataKey storageKey dropID
  if aesKeyLenOk metaKey then
    .ok { version := metadataVersion,
          encryptedData := gcmSeal metaKey nonce (payloadMarshal payload) (strBytes dropID),
          nonce := nonce }
  else .error .cipherSetupFailed

/-- decryptMetadataEnvelope: derive the subkey, hex-decode the fields (the
identity at this model granularity), create the cipher and gcm.Open with the
drop identifier bytes as AAD, then json.Unmarshal the plaintext. -/
def decryptMetadataEnvelope (env : EncryptedMetadata) (storageKey : List Nat)
    (dropID : String) : Except StorageErr MetadataPayload :=
  let metaKey := deriveMetadataKey storageKey dropID
  if aesKeyLenOk metaKey then
    match gcmOpen metaKey env.nonce env.encryptedData (strBytes dropID) with
    | none => .error .decryptFailed
    | some plaintext =>
      match payloadUnmarshal plaintext with
      | none => .error .metadataParseFailed
      | some payload => .ok payload
  else .error .cipherSetupFailed

/-- loadEncryptedMetadata: read the file (`contents`, none when os.ReadFile
fails), json.Unmarshal the envelope, reject version of zero or below, then
decrypt.  Only the encrypted JSON envelope format is supported. -/
def loadEncryptedMetadata (contents : Option (List Nat)) (storageKey : List Nat)
    (dropID : String) : Except StorageErr MetadataPayload :=
  match contents with
  | none => .error .notFound
  | some data =>
    match envelopeUnmarshal data with
    | none => .error .metadataParseFailed
    | some env =>
      if env.version ≤ 0 then .error .invalidMetadataVersion
      else decryptMetadataEnvelope env storageKey dropID

/-! ## internal/storage quota.go -/

/-- QuotaManager counters and limits (the mutex serializing updates is not
modelled; operations are given as state transformers). -/
structure QuotaManager where
  totalBytes : Int
  dropCount : Int
  maxBytes : Int
  maxDrops : Int
deriving DecidableEq

/-- One direct child of the storage root as seen by os.ReadDir, together with
the sizes of the files inside it (for os.Stat). -/
structure RootEntry where
  name : String
  isDir : Bool
  files : List (String × Nat)
deriving DecidableEq

/-- strings.HasPrefix(name, "."): the first character is a dot. -/
def dotName (s : String) : Bool :=
  match s.data with
  | [] => false
  | c :: _ => c == '.'

/-- The scan loop of NewQuotaManager: for each non-dot subdirectory, stat
the file named file.enc inside it; when that stat succeeds add its size to
the byte counter and increment the drop counter. -/
def scanDrops (entries : List RootEntry) : Int × Int :=
  entries.foldl
    (fun acc e =>
      if e.isDir && !(dotName e.name) then
        match e.files.find? (fun f => f.fst == "file.enc") with
        | some f => (acc.fst + (f.snd : Int), acc.snd + 1)
        | none => acc
      else acc)
    (0, 0)

/-- NewQuotaManager: seed the counters by scanning the storage root.  The Go
constructor converts a float maxGB to maxBytes; the limits enter the model
already converted to integers. -/
def NewQuotaManager (entries : List RootEntry) (maxBytes maxDrops : Int) : QuotaManager :=
  let s := scanDrops entries
  { totalBytes := s.fst, dropCount := s.snd, maxBytes := maxBytes, maxDrops := maxDrops }

/-- Reserve: fail when a positive byte limit would be exceeded, then when a
positive drop-count limit would be exceeded; otherwise commit both counters. -/
def QuotaManager.Reserve (qm : QuotaManager) (bytes : Int) : Except StorageErr QuotaManager :=
  if qm.maxBytes > 0 ∧ qm.totalBytes + bytes > qm.maxBytes then .error .quotaExceeded
  else if qm.maxDrops > 0 ∧ qm.dropCount + 1 > qm.maxDrops then .error .quotaExceeded
  else .ok { qm with totalBytes := qm.totalBytes + bytes, dropCount := qm.dropCount + 1 }

/-- Release: decrement both counters, clamping each at zero on underflow. -/
def QuotaManager.Release (qm : QuotaManager) (bytes : Int) : QuotaManager :=
  let tb := qm.totalBytes - bytes
  let dc := qm.dropCount - 1
  { qm with totalBytes := if tb < 0 then 0 else tb,
            dropCount := if dc < 0 then 0 else dc }

/-- A sequence of Reserve calls, all of which must succeed. -/
def reserveAll (qm : QuotaManager) : List Int → Except StorageErr QuotaManager
  | [] => .ok qm
  | n :: rest =>
    match qm.Reserve n with
    | .ok qm2 => reserveAll qm2 rest
    | .error e => .error e

/-- A sequence of Release calls. -/
def releaseAll (qm : QuotaManager) (ms : List Int) : QuotaManager :=
  ms.foldl (fun q m => q.Release m) qm

/-! ## The filesystem model and the storage manager (storage.go, secure.go) -/

/-- The filesystem: a path-to-contents association list; the head is the most
recent write. -/
def Fs : Type := List (String × List Nat)

/-- os.ReadFile. -/
def fsRead (fs : Fs) (path : String) : Option (List Nat) :=
  match List.find? (fun e => e.fst == path) fs with
  | some e => some e.snd
  | none => none

/-- os.WriteFile (create or overwrite). -/
def fsWrite (fs : Fs) (path : String) (contents : List Nat) : Fs :=
  (path, contents) :: fs

/-- Whether the string starts with the given other string. -/
def strStarts (s pre : String) : Bool := s.data.take pre.data.length == pre.data

/-- The files inside directory `dir` (paths below `dir`, slash-separated). -/
def dirEntries (fs : Fs) (dir : String) : List (String × List Nat) :=
  List.filter (fun e => strStarts e.fst (dir ++ "/")) fs

/-- os.RemoveAll of a directory subtree. -/
def fsRemoveDir (fs : Fs) (dir : String) : Fs :=
  List.filter (fun e => !(strStarts e.fst (dir ++ "/"))) fs

/-- SecureDeleteDir (secure_delete.go): os.ReadDir failing with IsNotExist —
no entries below the directory in this model — is success with nothing done;
otherwise every contained file is overwritten with three passes and removed,
then the directory itself is removed.  The overwrite passes replace contents
before removal, so their net effect on the path map is removal. -/
def SecureDeleteDir (fs : Fs) (dir : String) : Except StorageErr Fs :=
  if dirEntries fs dir = [] then .ok fs
  else .ok (fsRemoveDir fs dir)

/-- A Drop as returned by SaveDrop. -/
structure Drop where
  id : String
  filename : String
  size : Int
  timestamp : Int
  receipt : String
  fileHash : String
deriving DecidableEq

/-- computeSHA256: hex-encoded SHA-256 of the data. -/
def computeSHA256 (data : List Nat) : String := hexEncode (sha256Hash data)

/-- The storage manager.  The per-drop lock table serializes concurrent
access and is not representable in this sequential model; the quota counters
are mutated in place in the source and are modelled separately by
`QuotaManager` state transformers, with SaveDrop consulting the reservation
outcome. -/
structure Manager where
  storageDir : String
  encryptionKey : List Nat
  receipts : ReceiptManager
  quota : Option QuotaManager
  secureDelete : Bool

/-- The nil check and reservation on m.Quota inside SaveDrop. -/
def quotaAllows (q : Option QuotaManager) (size : Int) : Bool :=
  match q with
  | none => true
  | some qm => (qm.Reserve size).isOk

/-- SaveDrop: generate the identifier from 16 random bytes, compute the HMAC
receipt, reserve quota when configured, hash the plaintext, encrypt it to the
data file with the identifier bytes as AAD, and write the encrypted metadata
envelope with the hour-truncated timestamp.  `entropy`, `dataNonce` and
`metaNonce` model the random draws; `now` the wall clock. -/
def SaveDrop (m : Manager) (fs : Fs) (filename : String) (data : List Nat)
    (entropy dataNonce metaNonce : List Nat) (now : Int) :
    Except StorageErr (Drop × Fs) :=
  let id := generateID entropy
  let receipt := m.receipts.Generate id
  let dropDir := m.storageDir ++ "/" ++ id
  let size : Int := data.length
  if quotaAllows m.quota size then
    let fileHash := computeSHA256 data
    match EncryptStream m.encryptionKey data dataNonce (strBytes id) with
    | .error e => .error e
    | .ok enc =>
      let fs1 := fsWrite fs (dropDir ++ "/data") enc
      let nowHour := roundToHour now
      let payload : MetadataPayload :=
        { filename := filename, receipt := receipt,
          timestampHour := nowHour, fileHash := fileHash }
      match saveEncryptedMetadata m.encryptionKey id metaNonce payload with
      | .error e => .error e
      | .ok env =>
        let fs2 := fsWrite fs1 (dropDir ++ "/meta") (envelopeMarshal env)
        .ok ({ id := id, filename := filename, size := size, timestamp := nowHour,
               receipt := receipt, fileHash := fileHash }, fs2)
  else .error .quotaExceeded

/-- GetDrop: validate the identifier (before any path below the storage root
is formed), load and decrypt the metadata (failures wrap to drop-not-found),
open the payload file preferring data with legacy fallback file.enc, and
decrypt the stream with the identifier bytes as AAD. -/
def GetDrop (m : Manager) (fs : Fs) (id : String) : Except StorageErr (String × List Nat) :=
  if validDropID id then
    let dropDir := m.storageDir ++ "/" ++ id
    match loadEncryptedMetadata (fsRead fs (dropDir ++ "/meta")) m.encryptionKey id with
    | .error _ => .error .notFound
    | .ok payload =>
      let contents :=
        match fsRead fs (dropDir ++ "/data") with
        | some b => some b
        | none => fsRead fs (dropDir ++ "/file.enc")
      match contents with
      | none => .error .notFound
      | some enc =>
        match DecryptStream m.encryptionKey enc (strBytes id) with
        | .error e => .error e
        | .ok plaintext => .ok (payload.filename, plaintext)
  else .error .invalidDropID

/-- GetDropMetadata: validate the identifier, then load and decrypt the
metadata envelope without touching the payload file. -/
def GetDropMetadata (m : Manager) (fs : Fs) (id : String) :
    Except StorageErr MetadataPayload :=
  if validDropID id then
    loadEncryptedMetadata (fsRead fs (m.storageDir ++ "/" ++ id ++ "/meta"))
      m.encryptionKey id
  else .error .invalidDropID

/-- DeleteDrop: validate the identifier, release quota for the payload size
when a quota is configured (an in-place counter update, modelled by
`QuotaManager.Release`), then remove the drop directory securely or with an
ordinary recursive removal. -/
def DeleteDrop (m : Manager) (fs : Fs) (id : String) : Except StorageErr Fs :=
  if validDropID id then
    let dropDir := m.storageDir ++ "/" ++ id
    if m.secureDelete then SecureDeleteDir fs dropDir
    else .ok (fsRemoveDir fs dropDir)
  else .error .invalidDropID

/-! ## Helper lemmas -/

theorem aesKeyLenOk_derive (storageKey : List Nat) (dropID : String) :
    aesKeyLenOk (deriveMetadataKey storageKey dropID) = true := by
  simp [aesKeyLenOk, deriveMetadataKey, hkdfSha256]

theorem fsRead_write_same (fs : Fs) (p : String) (c : List Nat) :
    fsRead (fsWrite fs p c) p = some c := by
  simp [fsRead, fsWrite, List.find?]

theorem fsRead_write_ne (fs : Fs) (p q : String) (c : List Nat) (h : p ≠ q) :
    fsRead (fsWrite fs p c) q = fsRead fs q := by
  have hb : (p == q) = false := by simpa using h
  simp [fsRead, fsWrite, List.find?, hb]

theorem isHexLower_hexDigit : ∀ k : Nat, k < 16 → isHexLower (hexDigit k) = true := by
  decide

theorem length_flatMap_byteHexChars (l : List Nat) :
    (l.flatMap byteHexChars).length = 2 * l.length := by
  induction l with
  | nil => simp
  | cons b rest ih => simp [byteHexChars, ih]; omega

theorem validDropID_generateID (entropy : List Nat) (hlen : entropy.length = 16)
    (hb : ∀ b ∈ entropy, b < 256) : validDropID (generateID entropy) = true := by
  have hchars : ∀ c ∈ entropy.flatMap byteHexChars, isHexLower c = true := by
    intro c hc
    rcases List.mem_flatMap.mp hc with ⟨b, hbmem, hcb⟩
    have hble : b < 256 := hb b hbmem
    simp only [byteHexChars, List.mem_cons, List.mem_singleton, List.not_mem_nil,
      or_false] at hcb
    rcases hcb with h1 | h2
    · exact h1 ▸ isHexLower_hexDigit (b / 16) (by omega)
    · exact h2 ▸ isHexLower_hexDigit (b % 16) (by omega)
  have hlen2 : (entropy.flatMap byteHexChars).length = 32 := by
    rw [length_flatMap_byteHexChars, hlen]
  unfold validDropID generateID hexEncode
  rw [Bool.and_eq_true]
  constructor
  · show ((String.mk (entropy.flatMap byteHexChars)).length == 32) = true
    simp [String.length, hlen2]
  · show ((entropy.flatMap byteHexChars).all isHexLower) = true
    rw [List.all_eq_true]
    exact hchars

/-! ## Claim theorems -/

/-- C2: saveEncryptedMetadata encrypts the JSON payload with AES-256-GCM under
the HKDF subkey derived with info string "dead-drop-metadata-" plus the drop
identifier, with AAD equal to the identifier bytes; loadEncryptedMetadata
decrypts with the same AAD, so the envelope saved for drop `a` loads under
`a` but fails to decrypt when loaded under any distinct identifier `b`. -/
theorem claim_C2 (storageKey : List Nat) (a b : String) (nonce : List Nat)
    (payload : MetadataPayload) (env : EncryptedMetadata)
    (hsave : saveEncryptedMetadata storageKey a nonce payload = .ok env)
    (hne : a ≠ b) :
    env.encryptedData = gcmSeal (hkdfSha256 storageKey (strBytes ("dead-drop-metadata-" ++ a)))
        nonce (payloadMarshal payload) (strBytes a) ∧
    loadEncryptedMetadata (some (envelopeMarshal env)) storageKey a = .ok payload ∧
    loadEncryptedMetadata (some (envelopeMarshal env)) storageKey b = .error .decryptFailed := by
  have hkey := aesKeyLenOk_derive storageKey a
  rw [saveEncryptedMetadata] at hsave
  simp only [hkey, if_true] at hsave
  injection hsave with henv
  subst henv
  have haad : strBytes a ≠ strBytes b := fun hh => hne (strBytes_inj hh)
  refine ⟨rfl, ?_, ?_⟩
  · simp [loadEncryptedMetadata, envelopeUnmarshal_marshal, metadataVersion,
      decryptMetadataEnvelope, hkey, gcmOpen_gcmSeal, payloadUnmarshal_marshal]
  · simp [loadEncryptedMetadata, envelopeUnmarshal_marshal, metadataVersion,
      decryptMetadataEnvelope, aesKeyLenOk_derive, gcmOpen_wrong_aad, haad]

def c2key : List Nat := List.replicate 32 3

def c2payload : MetadataPayload :=
  { filename := "f.txt", receipt := "r", timestampHour := 0, fileHash := "h" }

def c2env : EncryptedMetadata :=
  match saveEncryptedMetadata c2key "aaaaaaaaaaaaaaaaaaaaaaaaaaaaaaaa" [5] c2payload with
  | .ok e => e
  | .error _ => { version := 0, encryptedData := [], nonce := [] }

theorem claim_C2_witness :
    loadEncryptedMetadata (some (envelopeMarshal c2env)) c2key
      "bbbbbbbbbbbbbbbbbbbbbbbbbbbbbbbb" = .error .decryptFailed :=
  (claim_C2 c2key "aaaaaaaaaaaaaaaaaaaaaaaaaaaaaaaa" "bbbbbbbbbbbbbbbbbbbbbbbbbbbbbbbb"
    [5] c2payload c2env rfl (by decide)).2.2

/-- C7: an envelope whose version is zero or below is rejected by
loadEncryptedMetadata with an invalid-version error, before any decryption. -/
theorem claim_C7 (env : EncryptedMetadata) (storageKey : List Nat) (id : String)
    (hv : env.version ≤ 0) :
    loadEncryptedMetadata (some (envelopeMarshal env)) storageKey id =
      .error .invalidMetadataVersion := by
  simp [loadEncryptedMetadata, envelopeUnmarshal_marshal, hv]

def c7env : EncryptedMetadata := { version := 0, encryptedData := [7], nonce := [9] }

theorem claim_C7_witness :
    loadEncryptedMetadata (some (envelopeMarshal c7env)) [] "x" =
      .error .invalidMetadataVersion :=
  claim_C7 c7env [] "x" (by decide)

/-- C4: validating the receipt generated for an identifier succeeds; any other
receipt string fails validation; Generate is the deterministic function
hex(HMAC-SHA-256(secret, identifier bytes)). -/
theorem claim_C4 (rm : ReceiptManager) (id r : String) (hne : r ≠ rm.Generate id) :
    rm.Validate id (rm.Generate id) = true ∧
    rm.Validate id r = false ∧
    rm.Generate id = hexEncode (hmacSha256 rm.secret (strBytes id)) := by
  refine ⟨?_, ?_, rfl⟩
  · simp [ReceiptManager.Validate, ConstantTimeCompare]
  · have hgen : rm.Generate id ≠ r := fun h => hne h.symm
    simp [ReceiptManager.Validate, ConstantTimeCompare, hgen]

theorem claim_C4_witness :
    ReceiptManager.Validate ⟨[]⟩ "" (ReceiptManager.Generate ⟨[]⟩ "") = true ∧
    ReceiptManager.Validate ⟨[]⟩ "" "x" = false :=
  ⟨(claim_C4 ⟨[]⟩ "" "x" (by decide)).1, (claim_C4 ⟨[]⟩ "" "x" (by decide)).2.1⟩

/-- C5: identifier validation accepts a string exactly when it consists of 32
characters from [0-9a-f] (the anchored regex), and GetDrop, GetDropMetadata
and DeleteDrop answer an invalid-identifier error on every rejected input for
every filesystem state, before any path below the storage root is formed. -/
theorem claim_C5 :
    (∀ s : String, validDropID s = true ↔
      (s.data.length = 32 ∧ ∀ c ∈ s.data, ('0' ≤ c ∧ c ≤ '9') ∨ ('a' ≤ c ∧ c ≤ 'f'))) ∧
    ∀ (m : Manager) (fs : Fs) (id : String), validDropID id = false →
      GetDrop m fs id = .error .invalidDropID ∧
      GetDropMetadata m fs id = .error .invalidDropID ∧
      DeleteDrop m fs id = .error .invalidDropID := by
  constructor
  · intro s
    have hlen : s.length = s.data.length := rfl
    rw [validDropID, Bool.and_eq_true, beq_iff_eq, hlen, List.all_eq_true]
    simp only [isHexLower, decide_eq_true_eq]
  · intro m fs id hid
    refine ⟨?_, ?_, ?_⟩ <;> simp [GetDrop, GetDropMetadata, DeleteDrop, hid]

def c5mgr : Manager :=
  { storageDir := "st", encryptionKey := List.replicate 32 0,
    receipts := ⟨[]⟩, quota := none, secureDelete := true }

theorem claim_C5_witness :
    validDropID "../../etc/passwd" = false ∧
    validDropID "ABCDEF0123456789ABCDEF0123456789" = false ∧
    validDropID "0123456789abcdef0123456789abcdef" = true ∧
    GetDrop c5mgr [] "../../etc/passwd" = .error .invalidDropID :=
  ⟨by decide, by decide, by decide,
    (claim_C5.2 c5mgr [] "../../etc/passwd" (by decide)).1⟩

/-- C6: a stream encrypted under one AAD fails authenticated decryption under
any distinct AAD: DecryptStream answers an error and emits no plaintext. -/
theorem claim_C6 (key pt nonce aad1 aad2 ct : List Nat)
    (hkey : key.length = 32) (hnonce : nonce.length = 12) (hne : aad1 ≠ aad2)
    (henc : EncryptStream key pt nonce aad1 = .ok ct) :
    DecryptStream key ct aad2 = .error .decryptFailed := by
  have hok : aesKeyLenOk key = true := by simp [aesKeyLenOk, hkey]
  rw [EncryptStream] at henc
  simp only [hok, if_true] at henc
  injection henc with hct
  subst hct
  have htake : (nonce ++ gcmSeal key nonce pt aad1).take 12 = nonce := by
    rw [← hnonce]
    exact List.take_left nonce _
  have hdrop : (nonce ++ gcmSeal key nonce pt aad1).drop 12 = gcmSeal key nonce pt aad1 := by
    rw [← hnonce]
    exact List.drop_left nonce _
  have hlen : ¬ (nonce ++ gcmSeal key nonce pt aad1).length < 12 := by
    simp [hnonce]
  rw [DecryptStream]
  simp only [hok, if_true, hlen, if_false, htake, hdrop,
    gcmOpen_wrong_aad key nonce key nonce pt aad1 aad2 hne]

theorem claim_C6_witness :
    DecryptStream (List.replicate 32 0)
      ((List.replicate 12 0) ++ gcmSeal (List.replicate 32 0) (List.replicate 12 0) [1, 2] [3])
      [4] = .error .decryptFailed :=
  claim_C6 (List.replicate 32 0) [1, 2] (List.replicate 12 0) [3] [4] _
    (by decide) (by decide) (by decide) rfl

/-- C3 counterexample: a key file of 10 bytes (neither 32 nor 60) does not
make loading fail with an error, contrary to the claim — loadOrGenerateKey
succeeds, discarding the file and generating a fresh key. -/
theorem claim_C3_counterexample :
    loadOrGenerateKey (some (List.replicate 10 7)) none [1] (List.replicate 32 2) [] =
      .ok (List.replicate 32 2, List.replicate 32 2) := by
  rfl

/-- C3 amended: a key file whose length is neither 32 nor 60 bytes is never
accepted as the key; instead of failing, loadOrGenerateKey behaves exactly as
if no key file existed — it generates a fresh key, writes it (wrapped when a
master key is configured) and returns it. -/
theorem claim_C3 (data : List Nat) (mk : Option (List Nat))
    (purpose freshKey wrapNonce : List Nat)
    (h32 : data.length ≠ 32) (h60 : data.length ≠ EncryptedKeySize) :
    loadOrGenerateKey (some data) mk purpose freshKey wrapNonce =
      loadOrGenerateKey none mk purpose freshKey wrapNonce ∧
    loadOrGenerateKey (some data) none purpose freshKey wrapNonce =
      .ok (freshKey, freshKey) := by
  cases mk with
  | none => simp [loadOrGenerateKey, h32]
  | some k => simp [loadOrGenerateKey, h32, h60]

theorem claim_C3_witness :
    loadOrGenerateKey (some (List.replicate 10 7)) none [1] (List.replicate 32 2) [] =
      .ok (List.replicate 32 2, List.replicate 32 2) :=
  (claim_C3 (List.replicate 10 7) none [1] (List.replicate 32 2) []
    (by decide) (by decide)).2

/-- Reserve success accumulates exactly the reserved sizes. -/
theorem reserveAll_totalBytes : ∀ (ns : List Int) (q q2 : QuotaManager),
    reserveAll q ns = .ok q2 → q2.totalBytes = q.totalBytes + ns.sum := by
  intro ns
  induction ns with
  | nil =>
    intro q q2 h
    injection h with h
    subst h
    simp
  | cons n rest ih =>
    intro q q2 h
    rw [reserveAll] at h
    cases hr : q.Reserve n with
    | error e => rw [hr] at h; cases h
    | ok q1 =>
      rw [hr] at h
      have hrec := ih q1 q2 h
      have hq1 : q1.totalBytes = q.totalBytes + n := by
        rw [QuotaManager.Reserve] at hr
        split at hr
        · cases hr
        · split at hr
          · cases hr
          · injection hr with hr
            subst hr
            rfl
      rw [hrec, hq1, List.sum_cons]
      ring

/-- Release clamps stepwise; over nonnegative sizes this equals a single
clamped subtraction. -/
theorem releaseAll_totalBytes : ∀ (ms : List Int) (q : QuotaManager),
    (∀ x ∈ ms, 0 ≤ x) → 0 ≤ q.totalBytes →
    (releaseAll q ms).totalBytes = max 0 (q.totalBytes - ms.sum) := by
  intro ms
  induction ms with
  | nil =>
    intro q h1 h2
    rw [releaseAll]
    simp
    omega
  | cons mh rest ih =>
    intro q h1 h2
    have hstep : releaseAll q (mh :: rest) = releaseAll (q.Release mh) rest := rfl
    have hm : 0 ≤ mh := h1 mh (by simp)
    have hrest : ∀ x ∈ rest, 0 ≤ x := fun x hx => h1 x (by simp [hx])
    have hrel : (q.Release mh).totalBytes = max 0 (q.totalBytes - mh) := by
      rw [QuotaManager.Release]
      dsimp
      split <;> omega
    have hnn : 0 ≤ (q.Release mh).totalBytes := by
      rw [hrel]
      exact le_max_left 0 _
    have hsum : 0 ≤ rest.sum := List.sum_nonneg hrest
    rw [hstep, ih (q.Release mh) hrest hnn, hrel, List.sum_cons]
    omega

/-- C9: from empty counters, after successful reservations of sizes ns and
releases of sizes ms the byte counter is the clamped difference of the sums;
Reserve fails exactly when a configured positive maximum would be exceeded,
and zero maxima impose no limit. -/
theorem claim_C9 (maxB maxD : Int) (ns ms : List Int) (q1 : QuotaManager)
    (hns : ∀ x ∈ ns, 0 ≤ x) (hms : ∀ x ∈ ms, 0 ≤ x)
    (hres : reserveAll ⟨0, 0, maxB, maxD⟩ ns = .ok q1) :
    (releaseAll q1 ms).totalBytes = max 0 (ns.sum - ms.sum) ∧
    (∀ (qm : QuotaManager) (bytes : Int),
      (qm.Reserve bytes).isOk = false ↔
        (qm.maxBytes > 0 ∧ qm.totalBytes + bytes > qm.maxBytes) ∨
        (qm.maxDrops > 0 ∧ qm.dropCount + 1 > qm.maxDrops)) ∧
    (∀ (qm : QuotaManager) (bytes : Int), qm.maxBytes = 0 → qm.maxDrops = 0 →
      (qm.Reserve bytes).isOk = true) := by
  have hiff : ∀ (qm : QuotaManager) (bytes : Int),
      (qm.Reserve bytes).isOk = false ↔
        (qm.maxBytes > 0 ∧ qm.totalBytes + bytes > qm.maxBytes) ∨
        (qm.maxDrops > 0 ∧ qm.dropCount + 1 > qm.maxDrops) := by
    intro qm bytes
    rw [QuotaManager.Reserve]
    by_cases h1 : qm.maxBytes > 0 ∧ qm.totalBytes + bytes > qm.maxBytes
    · simp [h1, Except.isOk, Except.toBool]
    · by_cases h2 : qm.maxDrops > 0 ∧ qm.dropCount + 1 > qm.maxDrops
      · simp [h1, h2, Except.isOk, Except.toBool]
      · simp [h1, h2, Except.isOk, Except.toBool]
  refine ⟨?_, hiff, ?_⟩
  · have htot : q1.totalBytes = ns.sum := by
      have := reserveAll_totalBytes ns _ q1 hres
      simpa using this
    have hnn : 0 ≤ q1.totalBytes := by
      rw [htot]
      exact List.sum_nonneg hns
    rw [releaseAll_totalBytes ms q1 hms hnn, htot]
  · intro qm bytes hB hD
    rw [QuotaManager.Reserve]
    simp [hB, hD, Except.isOk, Except.toBool]

theorem claim_C9_witness :
    (releaseAll ⟨5, 1, 0, 0⟩ [10]).totalBytes =
      max 0 (List.sum [(5 : Int)] - List.sum [(10 : Int)]) :=
  (claim_C9 0 0 [5] [10] ⟨5, 1, 0, 0⟩ (by decide) (by decide) rfl).1

/-- C10: for a well-formed identifier whose drop directory is absent,
SecureDeleteDir treats the missing directory as success, and DeleteDrop
returns success rather than a not-found error under either deletion mode;
deleting the same drop twice therefore succeeds both times. -/
theorem claim_C10 (m : Manager) (fs : Fs) (id : String) (hid : validDropID id = true) :
    (dirEntries fs (m.storageDir ++ "/" ++ id) = [] →
      SecureDeleteDir fs (m.storageDir ++ "/" ++ id) = .ok fs) ∧
    ∃ fs2, DeleteDrop m fs id = .ok fs2 ∧ ∃ fs3, DeleteDrop m fs2 id = .ok fs3 := by
  have hok : ∀ g : Fs, ∃ g2, DeleteDrop m g id = .ok g2 := by
    intro g
    rw [DeleteDrop]
    simp only [hid, if_true]
    cases hsd : m.secureDelete
    · simp
    · rw [SecureDeleteDir]
      by_cases hc : dirEntries g (m.storageDir ++ "/" ++ id) = []
      · simp [hc]
      · simp [hc]
  constructor
  · intro hmiss
    simp [SecureDeleteDir, hmiss]
  · obtain ⟨fs2, h2⟩ := hok fs
    obtain ⟨fs3, h3⟩ := hok fs2
    exact ⟨fs2, h2, fs3, h3⟩

def c10mgr : Manager :=
  { storageDir := "st", encryptionKey := List.replicate 32 0,
    receipts := ⟨[]⟩, quota := none, secureDelete := true }

def c10id : String := "aaaaaaaaaaaaaaaaaaaaaaaaaaaaaaaa"

theorem claim_C10_witness :
    SecureDeleteDir [] (c10mgr.storageDir ++ "/" ++ c10id) = .ok [] ∧
    ∃ fs2, DeleteDrop c10mgr [] c10id = .ok fs2 ∧
      ∃ fs3, DeleteDrop c10mgr fs2 c10id = .ok fs3 :=
  ⟨(claim_C10 c10mgr [] c10id (by decide)).1 rfl,
    (claim_C10 c10mgr [] c10id (by decide)).2⟩

/-- C8 evidence: the quota scan counts only subdirectories containing a file
named file.enc.  A drop stored with payload filename data — the name written
by SaveDrop — is not counted, although the spec and the test
TestNewQuotaManager_ScansExistingDrops require both names to count. -/
def c8root : List RootEntry :=
  [{ name := "abcdef0123456789abcdef0123456789", isDir := true, files := [("data", 1000)] }]

def c8rootLegacy : List RootEntry :=
  [{ name := "abcdef0123456789abcdef0123456789", isDir := true, files := [("file.enc", 1000)] }]

/-- C8: evaluating NewQuotaManager at a root holding one drop whose payload
file is named data yields zero counters, while the same drop with the legacy
name file.enc is counted — the scan ignores the current payload filename. -/
theorem claim_C8 :
    (NewQuotaManager c8root 0 0).totalBytes = 0 ∧
    (NewQuotaManager c8root 0 0).dropCount = 0 ∧
    (NewQuotaManager c8rootLegacy 0 0).totalBytes = 1000 ∧
    (NewQuotaManager c8rootLegacy 0 0).dropCount = 1 :=
  ⟨rfl, rfl, rfl, rfl⟩

/-- Stream decryption inverts stream encryption under the same key and AAD. -/
theorem DecryptStream_EncryptStream (key pt nonce aad ct : List Nat)
    (hnonce : nonce.length = 12)
    (henc : EncryptStream key pt nonce aad = .ok ct) :
    DecryptStream key ct aad = .ok pt := by
  cases haes : aesKeyLenOk key with
  | false =>
    rw [EncryptStream] at henc
    simp [haes] at henc
  | true =>
    rw [EncryptStream] at henc
    simp only [haes, if_true] at henc
    injection henc with hct
    subst hct
    have htake : (nonce ++ gcmSeal key nonce pt aad).take 12 = nonce := by
      rw [← hnonce]
      exact List.take_left nonce _
    have hdrop : (nonce ++ gcmSeal key nonce pt aad).drop 12 = gcmSeal key nonce pt aad := by
      rw [← hnonce]
      exact List.drop_left nonce _
    have hlt : ¬ (nonce ++ gcmSeal key nonce pt aad).length < 12 := by
      simp [hnonce]
    rw [DecryptStream]
    simp only [haes, if_true, hlt, if_false, htake, hdrop, gcmOpen_gcmSeal]

/-- Loading a metadata envelope written for the same identifier returns the
original payload. -/
theorem loadEncryptedMetadata_roundtrip (storageKey : List Nat) (id : String)
    (nonce : List Nat) (payload : MetadataPayload) (env : EncryptedMetadata)
    (hsave : saveEncryptedMetadata storageKey id nonce payload = .ok env) :
    loadEncryptedMetadata (some (envelopeMarshal env)) storageKey id = .ok payload := by
  have hkey := aesKeyLenOk_derive storageKey id
  rw [saveEncryptedMetadata] at hsave
  simp only [hkey, if_true] at hsave
  injection hsave with henv
  subst henv
  simp [loadEncryptedMetadata, envelopeUnmarshal_marshal, metadataVersion,
    decryptMetadataEnvelope, hkey, gcmOpen_gcmSeal, payloadUnmarshal_marshal]

/-- GetDrop on a state holding the two files just written for `id`. -/
theorem GetDrop_after_writes (m : Manager) (fs : Fs) (id : String) (enc mb pt : List Nat)
    (payload : MetadataPayload)
    (hvalid : validDropID id = true)
    (hload : loadEncryptedMetadata (some mb) m.encryptionKey id = .ok payload)
    (hdec : DecryptStream m.encryptionKey enc (strBytes id) = .ok pt) :
    GetDrop m (fsWrite (fsWrite fs (m.storageDir ++ "/" ++ id ++ "/data") enc)
      (m.storageDir ++ "/" ++ id ++ "/meta") mb) id = .ok (payload.filename, pt) := by
  have hne : (m.storageDir ++ "/" ++ id ++ "/meta") ≠ (m.storageDir ++ "/" ++ id ++ "/data") :=
    str_append_ne (m.storageDir ++ "/" ++ id) (by decide)
  rw [GetDrop]
  simp only [hvalid, if_true, fsRead_write_same,
    fsRead_write_ne (fsWrite fs (m.storageDir ++ "/" ++ id ++ "/data") enc)
      (m.storageDir ++ "/" ++ id ++ "/meta") (m.storageDir ++ "/" ++ id ++ "/data") mb hne,
    hload, hdec]

/-- C1: when SaveDrop succeeds, GetDrop on the returned identifier succeeds
and returns exactly the original filename and plaintext bytes.  The entropy
hypotheses state that the identifier comes from 16 random bytes and the
stream nonce from 12, as drawn by the source. -/
theorem claim_C1 (m : Manager) (fs : Fs) (filename : String) (data : List Nat)
    (entropy dataNonce metaNonce : List Nat) (now : Int) (drop : Drop) (fs2 : Fs)
    (hlen : entropy.length = 16) (hb : ∀ b ∈ entropy, b < 256)
    (hnonce : dataNonce.length = 12)
    (hsave : SaveDrop m fs filename data entropy dataNonce metaNonce now = .ok (drop, fs2)) :
    GetDrop m fs2 drop.id = .ok (filename, data) := by
  have hvalid : validDropID (generateID entropy) = true :=
    validDropID_generateID entropy hlen hb
  rw [SaveDrop] at hsave
  simp only [] at hsave
  cases hq : quotaAllows m.quota (data.length : Int) with
  | false =>
    rw [hq] at hsave
    simp at hsave
  | true =>
    rw [hq] at hsave
    simp only [if_true] at hsave
    cases henc : EncryptStream m.encryptionKey data dataNonce (strBytes (generateID entropy)) with
    | error e =>
      rw [henc] at hsave
      simp at hsave
    | ok enc =>
      rw [henc] at hsave
      cases hmeta : saveEncryptedMetadata m.encryptionKey (generateID entropy) metaNonce
          { filename := filename, receipt := m.receipts.Generate (generateID entropy),
            timestampHour := roundToHour now, fileHash := computeSHA256 data } with
      | error e =>
        rw [hmeta] at hsave
        simp at hsave
      | ok env =>
        rw [hmeta] at hsave
        simp only [] at hsave
        injection hsave with hpair
        injection hpair with hdrop hfs
        subst hdrop
        subst hfs
        exact GetDrop_after_writes m fs (generateID entropy) enc (envelopeMarshal env) data
          _ hvalid (loadEncryptedMetadata_roundtrip _ _ _ _ _ hmeta)
          (DecryptStream_EncryptStream _ _ _ _ _ hnonce henc)

def c1mgr : Manager :=
  { storageDir := "st", encryptionKey := List.replicate 32 0,
    receipts := ⟨[]⟩, quota := none, secureDelete := true }

def c1entropy : List Nat := List.replicate 16 0

def c1nonce : List Nat := List.replicate 12 0

def c1data : List Nat := [104, 105]

def c1out : Except StorageErr (Drop × Fs) :=
  SaveDrop c1mgr [] "note.txt" c1data c1entropy c1nonce [] 0

def c1pair : Drop × Fs :=
  match c1out with
  | .ok p => p
  | .error _ => (⟨"", "", 0, 0, "", ""⟩, [])

theorem claim_C1_witness :
    GetDrop c1mgr c1pair.snd c1pair.fst.id = .ok ("note.txt", c1data) :=
  claim_C1 c1mgr [] "note.txt" c1data c1entropy c1nonce [] 0 c1pair.fst c1pair.snd
    (by decide) (by decide) (by decide) rfl

end DeadDrop
